import Mathlib

/-!
Verification of the FIX-style spike wire protocol of RusticNkisi.

The development shallowly embeds the protocol engine of the repository:

* the client-side message encoder of `src/bin/fixclient.rs`
  (`build_spike_message`, `push_fix_field`, `find_after_bodylen`,
  `write_bodylen_in_place`, `checksum`);
* the server-side stream reassembler and decoder of `src/main.rs`
  (`handle_fix_connection`'s drain loop, `find_fix_end`, `parse_fix_spike`).

Byte buffers (`Vec<u8>` / `&[u8]`) are modelled as `List Nat`, with each
element the value of one byte; the field delimiter SOH is the byte 1.
Fallible Rust code (functions returning `Option`, or calls that `panic`
through `expect`) is modelled with `Option`.  Rust `f32` values are
modelled by the type `Fl` below, which keeps the mathematical value of a
finite float as an exact rational; this abstraction is spelled out at the
definition of `Fl`.
-/

/-- ASCII decimal digit test: byte values 48..57. -/
def isDigit (b : Nat) : Bool := 48 ≤ b && b ≤ 57

/-- Numeric value of a list of ASCII digits read in base 10
(the usual left fold used when parsing decimal numerals). -/
def decValue (l : List Nat) : Nat := l.foldl (fun a b => a * 10 + (b - 48)) 0

/-- Structurally recursive worker for `natDigits`; the fuel only bounds
the recursion depth and any fuel at least the number itself is enough
(`natDigitsAux_adequate`). -/
def natDigitsAux : Nat → Nat → List Nat
  | 0, n => [48 + n % 10]
  | fuel + 1, n => if n < 10 then [48 + n] else natDigitsAux fuel (n / 10) ++ [48 + n % 10]

/-- ASCII decimal rendering of a natural number, most significant digit
first.  This models Rust's `u32::to_string` / `usize::to_string` on the
(nonnegative) numbers the encoder renders. -/
def natDigits (n : Nat) : List Nat := natDigitsAux n n

/-- Any sufficiently large fuel computes the same digits. -/
theorem natDigitsAux_adequate : ∀ f1 f2 n : Nat, n ≤ f1 → n ≤ f2 →
    natDigitsAux f1 n = natDigitsAux f2 n := by
  intro f1
  induction f1 with
  | zero =>
    intro f2 n h1 h2
    have hn : n = 0 := by omega
    cases f2 with
    | zero => rfl
    | succ f2 => simp [natDigitsAux, hn]
  | succ f1 ih =>
    intro f2 n h1 h2
    cases f2 with
    | zero =>
      have hn : n = 0 := by omega
      simp [natDigitsAux, hn]
    | succ f2 =>
      simp only [natDigitsAux]
      by_cases hlt : n < 10
      · simp [hlt]
      · simp [hlt]
        have hx : n / 10 < n := Nat.div_lt_self (by omega) (by omega)
        have hd : n / 10 ≤ f1 := by omega
        have hd2 : n / 10 ≤ f2 := by omega
        rw [ih f2 (n / 10) hd hd2]

/-- The defining recurrence of the decimal rendering. -/
theorem natDigits_eq (n : Nat) :
    natDigits n = if n < 10 then [48 + n] else natDigits (n / 10) ++ [48 + n % 10] := by
  by_cases hlt : n < 10
  · rw [if_pos hlt]
    cases hn : n with
    | zero => subst hn; rfl
    | succ k =>
      subst hn
      simp only [natDigits, natDigitsAux]
      rw [if_pos hlt]
  · rw [if_neg hlt]
    cases hn : n with
    | zero => omega
    | succ k =>
      subst hn
      have hx : (k + 1) / 10 ≤ k := by
        have h2 : (k + 1) / 10 < k + 1 := Nat.div_lt_self (by omega) (by omega)
        omega
      simp only [natDigits, natDigitsAux]
      rw [if_neg hlt]
      rw [natDigitsAux_adequate k ((k + 1) / 10) ((k + 1) / 10) hx (le_refl _)]

/-- Zero padding to width 3, modelling Rust's `format!("\x7b:03\x7d", n)`:
the decimal digits of `n`, left-padded with ASCII `0` up to 3 characters
(numbers of four or more digits are rendered unpadded, not truncated). -/
def pad3 (n : Nat) : List Nat :=
  List.replicate (3 - (natDigits n).length) 48 ++ natDigits n

/-- A UTF-8 continuation byte: 0x80..0xBF. -/
def utf8Cont (b : Nat) : Bool := 128 ≤ b && b ≤ 191

/-- Expected ranges for the continuation bytes of a UTF-8 sequence led
by `b`, or `none` when `b` cannot lead a sequence, following the
standard table of well-formed sequences (as enforced by Rust's
`std::str::from_utf8`): ASCII, 2-byte C2..DF, 3-byte E0/E1-EC/ED/EE-EF
with their restricted second bytes, 4-byte F0/F1-F3/F4 with their
restricted second bytes. -/
def utf8Need (b : Nat) : Option (List (Nat × Nat)) :=
  if b ≤ 127 then some []
  else if 194 ≤ b ∧ b ≤ 223 then some [(128, 191)]
  else if b = 224 then some [(160, 191), (128, 191)]
  else if (225 ≤ b ∧ b ≤ 236) ∨ (238 ≤ b ∧ b ≤ 239) then
    some [(128, 191), (128, 191)]
  else if b = 237 then some [(128, 159), (128, 191)]
  else if b = 240 then some [(144, 191), (128, 191), (128, 191)]
  else if 241 ≤ b ∧ b ≤ 243 then some [(128, 191), (128, 191), (128, 191)]
  else if b = 244 then some [(128, 143), (128, 191), (128, 191)]
  else none

/-- Byte-at-a-time UTF-8 validation: `reqs` holds the ranges still
expected for the current multi-byte sequence. -/
def utf8ValidAux : List Nat → List (Nat × Nat) → Bool
  | [], reqs => reqs.isEmpty
  | b :: rest, [] =>
    match utf8Need b with
    | none => false
    | some reqs => utf8ValidAux rest reqs
  | b :: rest, (lo, hi) :: reqs =>
    if lo ≤ b ∧ b ≤ hi then utf8ValidAux rest reqs else false

/-- UTF-8 validity of a byte sequence, as checked by Rust's
`std::str::from_utf8`. -/
def utf8Valid (l : List Nat) : Bool := utf8ValidAux l []

/-- Digits-and-range part of Rust's `i32::from_str`: a nonempty run of
ASCII digits, accepted only when the signed value fits in `i32`. -/
def parseI32digits (s : List Nat) (neg : Bool) : Option Int :=
  if s = [] then none
  else if s.all isDigit then
    let v : Int := if neg then -(decValue s : Int) else (decValue s : Int)
    if -(2 ^ 31) ≤ v ∧ v ≤ 2 ^ 31 - 1 then some v else none
  else none

/-- Rust's `str::parse::<i32>` on the raw bytes of the string: an optional
sign followed by digits, rejecting overflow, an empty numeral, or any
other character.  In the decoder the source first runs
`std::str::from_utf8` and then `parse::<i32>`; a byte list is accepted by
that composition iff it is accepted here, because every accepted numeral
is pure ASCII (and ASCII is valid UTF-8), and both stages reject through
the same `Option` path. -/
def parseI32 (s : List Nat) : Option Int :=
  match s with
  | 43 :: rest => parseI32digits rest false
  | 45 :: rest => parseI32digits rest true
  | rest => parseI32digits rest false

/-- Model of a Rust `f32` as the decoder uses it.  A finite float is
represented as `fin q` where `q` is the exact rational value of the
decimal numeral it was parsed from (the concrete `f32` is the rounding of
`q` to nearest; every claim proved below depends only on facts that are
invariant under that monotone rounding, since the clamp bounds 0, 100 and
150 are exactly representable).  `inf`, `neginf` and `nan` model the
non-finite parses accepted by `f32::from_str`. -/
inductive Fl where
  | nan : Fl
  | inf : Fl
  | neginf : Fl
  | fin (q : ℚ) : Fl
deriving DecidableEq, Repr

/-- ASCII lower-casing of a byte (only A..Z move), for the
case-insensitive keywords of `f32::from_str`. -/
def lowerByte (b : Nat) : Nat := if 65 ≤ b && b ≤ 90 then b + 32 else b

/-- Exponent part of the float grammar: `(e|E) Sign? Count`. -/
def parseExp (s : List Nat) : Option Int :=
  match s with
  | e :: rest =>
    if e = 101 || e = 69 then
      match rest with
      | 43 :: ds => if ds ≠ [] ∧ ds.all isDigit then some (decValue ds : Int) else none
      | 45 :: ds => if ds ≠ [] ∧ ds.all isDigit then some (-(decValue ds : Int)) else none
      | ds => if ds ≠ [] ∧ ds.all isDigit then some (decValue ds : Int) else none
    else none
  | [] => none

/-- The exact rational value of a signed decimal mantissa scaled by a
power of ten: `(-1)^neg * mant * 10^e`.  Built with `mkRat` on integer
arithmetic rather than with rational multiplication, which denotes the
same number. -/
def qOfDecimal (neg : Bool) (mant : Nat) (e : Int) : ℚ :=
  let sn : Int := if neg then -(mant : Int) else (mant : Int)
  if 0 ≤ e then mkRat (sn * ((10 ^ e.toNat : Nat) : Int)) 1
  else mkRat sn (10 ^ (-e).toNat)

/-- Number part of the `f32::from_str` grammar
(`Count '.'? Count? Exp?` or `'.' Count Exp?`), with its exact rational
value: integer and fraction digits scaled by the optional exponent. -/
def parseNumber (s : List Nat) (neg : Bool) : Option Fl :=
  let intPart := s.takeWhile isDigit
  let rest1 := s.dropWhile isDigit
  match rest1 with
  | 46 :: rest2 =>
    let fracPart := rest2.takeWhile isDigit
    let rest3 := rest2.dropWhile isDigit
    if intPart = [] ∧ fracPart = [] then none
    else
      let e : Option Int :=
        match rest3 with
        | [] => some 0
        | r => parseExp r
      match e with
      | none => none
      | some ex =>
        some (Fl.fin (qOfDecimal neg (decValue (intPart ++ fracPart))
          (ex - (fracPart.length : Int))))
  | _ =>
    if intPart = [] then none
    else
      let e : Option Int :=
        match rest1 with
        | [] => some 0
        | r => parseExp r
      match e with
      | none => none
      | some ex => some (Fl.fin (qOfDecimal neg (decValue intPart) ex))

/-- Keyword-or-number body of `f32::from_str` after the optional sign:
case-insensitive `inf`, `infinity`, `nan`, or a decimal number. -/
def parseF32body (s : List Nat) (neg : Bool) : Option Fl :=
  if s.map lowerByte = [105, 110, 102] then
    some (if neg then Fl.neginf else Fl.inf)
  else if s.map lowerByte = [105, 110, 102, 105, 110, 105, 116, 121] then
    some (if neg then Fl.neginf else Fl.inf)
  else if s.map lowerByte = [110, 97, 110] then some Fl.nan
  else parseNumber s neg

/-- Rust's `str::parse::<f32>` on the raw bytes of the string: optional
sign, then keyword or number.  Overflow and underflow never fail (they
round to an infinity or zero), so success is exactly membership in the
documented grammar; the resulting value is modelled exactly per `Fl`. -/
def parseF32 (s : List Nat) : Option Fl :=
  match s with
  | 43 :: rest => parseF32body rest false
  | 45 :: rest => parseF32body rest true
  | rest => parseF32body rest false

/-- Rust's `f32::clamp(lo, hi)` as used by the decoder: less than `lo`
gives `lo`, greater than `hi` gives `hi`, NaN propagates (both
comparisons are false on NaN), the infinities clamp to the bounds. -/
def fclamp (x : Fl) (lo hi : ℚ) : Fl :=
  match x with
  | Fl.nan => Fl.nan
  | Fl.inf => Fl.fin hi
  | Fl.neginf => Fl.fin lo
  | Fl.fin q => if q < lo then Fl.fin lo else if q > hi then Fl.fin hi else Fl.fin q

/-- Whether a (model) float lies in the closed interval from `lo` to
`hi`; NaN and the infinities do not lie in any interval. -/
def flInBounds (lo hi : ℚ) (x : Fl) : Bool :=
  match x with
  | Fl.fin q => lo ≤ q && q ≤ hi
  | _ => false

/-! ## Encoder (src/bin/fixclient.rs) -/

/-- `push_fix_field`: append `"<tag>=<value>"` and one SOH delimiter to
the buffer (`write!(buf, "\x7b\x7d=\x7b\x7d", tag, value)` then
`buf.push(SOH)`). -/
def push_fix_field (buf : List Nat) (tag : Nat) (value : List Nat) : List Nat :=
  buf ++ natDigits tag ++ [61] ++ value ++ [1]

/-- The encoder's buffer after step 3 of the build: the fixed header
(`8=FIX.4.2`, the `9=000` body-length placeholder, `35=SPK`), the custom
fields `100` (spike id), `101` (who), `102` (note), and the trailer field
`52` (sending time).  The sending-time string, produced impurely by
`current_fix_timestamp` in the source, is passed in as `ts`. -/
def rawMsg (spike_id : Nat) (who note ts : List Nat) : List Nat :=
  let out := push_fix_field [] 8 [70, 73, 88, 46, 52, 46, 50]
  let out := push_fix_field out 9 [48, 48, 48]
  let out := push_fix_field out 35 [83, 80, 75]
  let out := push_fix_field out 100 (natDigits spike_id)
  let out := push_fix_field out 101 who
  let out := push_fix_field out 102 note
  push_fix_field out 52 ts

/-- Scan for the first SOH byte at or after position `j0`, over the bytes
`l` that sit at positions `j0, j0+1, …` of the buffer; returns the
buffer position of the SOH.  This is the inner
`while j < buf.len() && buf[j] != SOH` loops of `find_after_bodylen`,
`write_bodylen_in_place` and `find_fix_end`, together with their
following `j < buf.len()` test. -/
def findSOHidx : List Nat → Nat → Option Nat
  | [], _ => none
  | b :: rest, j => if b = 1 then some j else findSOHidx rest (j + 1)

/-- `find_after_bodylen`, scanning from position `i`: find the first
occurrence of `"9="` (with at least one byte after it, per the loop
bound `i + 2 < buf.len()`), then the next SOH; return the position just
after that SOH.  Unlike `write_bodylen_in_place`, a needle match with no
following SOH returns `None` immediately. -/
def find_after_bodylen_aux : List Nat → Nat → Option Nat
  | [], _ => none
  | a :: rest, i =>
    match rest with
    | b :: c :: rest2 =>
      if a = 57 ∧ b = 61 then
        match findSOHidx (c :: rest2) (i + 2) with
        | some j => some (j + 1)
        | none => none
      else find_after_bodylen_aux rest (i + 1)
    | _ => none

/-- `find_after_bodylen` of the source, started at position 0. -/
def find_after_bodylen (buf : List Nat) : Option Nat :=
  find_after_bodylen_aux buf 0

/-- `write_bodylen_in_place`: find the first `"9="` (loop bound
`i + 2 <= buf.len()`, so at least two bytes remaining), locate the next
SOH, and splice the decimal digits of `len` over the bytes strictly
between the `"9="` and that SOH (`buf.splice(i+2..j, digits)`); `None`
when the needle is absent or no SOH follows it.  The already-scanned
bytes are carried in `pre`; the result is the whole rewritten buffer. -/
def wblAux (digits : List Nat) : List Nat → List Nat → Option (List Nat)
  | _, [] => none
  | pre, a :: rest =>
    match rest with
    | b :: rest2 =>
      if a = 57 ∧ b = 61 then
        let suffix := rest2.dropWhile (fun x => !(x == 1))
        if suffix = [] then none
        else some (pre ++ [57, 61] ++ digits ++ suffix)
      else wblAux digits (pre ++ [a]) rest
    | [] => none

/-- `write_bodylen_in_place` of the source. -/
def write_bodylen_in_place (buf : List Nat) (len : Nat) : Option (List Nat) :=
  wblAux (natDigits len) [] buf

/-- `checksum`: the byte sum of the buffer reduced modulo 256.  The
source sums in a `u32`; since `2^32` is a multiple of 256, the result
modulo 256 is unaffected by any wraparound. -/
def checksum (buf : List Nat) : Nat := buf.foldl (· + ·) 0 % 256

/-- `build_spike_message spike_id who note ts`: build the raw buffer,
locate the body start after the `9=` field, rewrite the body-length
placeholder in place with the byte count from the body start to the end
of the buffer, and append the `10=` checksum trailer rendered on three
zero-padded digits.  The two `expect` calls of the source are modelled
by `Option` (`none` is the panic). -/
def build_spike_message (spike_id : Nat) (who note ts : List Nat) : Option (List Nat) :=
  let out := rawMsg spike_id who note ts
  match find_after_bodylen out with
  | none => none
  | some body_start =>
    match write_bodylen_in_place out (out.length - body_start) with
    | none => none
    | some out2 => some (push_fix_field out2 10 (pad3 (checksum out2)))

/-! ## Stream reassembler (src/main.rs, handle_fix_connection / find_fix_end) -/

/-- `find_fix_end`, scanning from position `i`: find the first
occurrence of `"10="` (loop bound `i + 3 < buf.len()`, so at least one
byte after the needle) that is followed, at some later position, by an
SOH; return that SOH's position.  When a needle occurrence has no SOH
after it the outer loop continues with the next `i`. -/
def find_fix_end_aux : List Nat → Nat → Option Nat
  | [], _ => none
  | a :: rest, i =>
    match rest with
    | b :: c :: d :: rest2 =>
      if a = 49 ∧ b = 48 ∧ c = 61 then
        match findSOHidx (d :: rest2) (i + 3) with
        | some j => some j
        | none => find_fix_end_aux rest (i + 1)
      else find_fix_end_aux rest (i + 1)
    | _ => none

/-- `find_fix_end` of the source, started at position 0. -/
def find_fix_end (buf : List Nat) : Option Nat := find_fix_end_aux buf 0

/-- Unfolding equation for `find_fix_end_aux` on a long enough list. -/
theorem find_fix_end_aux_cons (a b c d : Nat) (rest : List Nat) (i : Nat) :
    find_fix_end_aux (a :: b :: c :: d :: rest) i =
      if a = 49 ∧ b = 48 ∧ c = 61 then
        match findSOHidx (d :: rest) (i + 3) with
        | some j => some j
        | none => find_fix_end_aux (b :: c :: d :: rest) (i + 1)
      else find_fix_end_aux (b :: c :: d :: rest) (i + 1) := by
  rw [find_fix_end_aux]

/-- A short list makes `find_fix_end_aux` fail. -/
theorem find_fix_end_aux_short {l : List Nat} {i : Nat} (h : l.length < 4) :
    find_fix_end_aux l i = none := by
  match l, h with
  | [], _ => rw [find_fix_end_aux] <;> simp
  | [a], _ => rw [find_fix_end_aux] <;> simp
  | [a, b], _ => rw [find_fix_end_aux] <;> simp
  | [a, b, c], _ => rw [find_fix_end_aux] <;> simp
  | a :: b :: c :: d :: rest, h => (simp only [List.length_cons] at h; omega)

/-- A successful `findSOHidx` returns a position in range. -/
theorem findSOHidx_lt {l : List Nat} {j e : Nat}
    (h : findSOHidx l j = some e) : j ≤ e ∧ e < j + l.length := by
  induction l generalizing j with
  | nil => simp [findSOHidx] at h
  | cons b rest ih =>
    simp only [findSOHidx] at h
    by_cases hb : b = 1
    · simp [hb] at h
      simp [List.length_cons]
      omega
    · simp [hb] at h
      have h2 := ih h
      simp [List.length_cons]
      omega

/-- A successful `find_fix_end_aux` returns a position in range. -/
theorem find_fix_end_aux_lt {l : List Nat} : ∀ {i e : Nat},
    find_fix_end_aux l i = some e → e < i + l.length := by
  induction l with
  | nil => intro i e h; rw [find_fix_end_aux_short (by simp)] at h; cases h
  | cons a t ih =>
    intro i e h
    cases t with
    | nil => rw [find_fix_end_aux_short (by simp)] at h; cases h
    | cons b t2 =>
      cases t2 with
      | nil => rw [find_fix_end_aux_short (by simp)] at h; cases h
      | cons c t3 =>
        cases t3 with
        | nil => rw [find_fix_end_aux_short (by simp)] at h; cases h
        | cons d rest =>
          rw [find_fix_end_aux_cons] at h
          by_cases hn : a = 49 ∧ b = 48 ∧ c = 61
          · rw [if_pos hn] at h
            cases hs : findSOHidx (d :: rest) (i + 3) with
            | some j =>
              rw [hs] at h
              simp at h
              have h2 := findSOHidx_lt hs
              simp [List.length_cons] at h2 ⊢
              omega
            | none =>
              rw [hs] at h
              have h2 := ih h
              simp [List.length_cons] at h2 ⊢
              omega
          · rw [if_neg hn] at h
            have h2 := ih h
            simp [List.length_cons] at h2 ⊢
            omega

/-- A successful SOH scan stays successful when bytes are appended. -/
theorem findSOHidx_append {l y : List Nat} {j e : Nat}
    (h : findSOHidx l j = some e) : findSOHidx (l ++ y) j = some e := by
  induction l generalizing j with
  | nil => simp [findSOHidx] at h
  | cons b rest ih =>
    simp only [findSOHidx, List.cons_append] at h ⊢
    by_cases hb : b = 1
    · simpa [hb] using h
    · simp [hb] at h ⊢
      exact ih h

/-- A failed SOH scan means the SOH byte does not occur. -/
theorem findSOHidx_none {l : List Nat} {j : Nat}
    (h : findSOHidx l j = none) : ¬ (1 ∈ l) := by
  induction l generalizing j with
  | nil => simp
  | cons b rest ih =>
    simp only [findSOHidx] at h
    by_cases hb : b = 1
    · simp [hb] at h
    · simp [hb] at h
      simp [hb]
      exact ⟨fun he => hb he.symm, ih h⟩

/-- A successful SOH scan means the SOH byte occurs. -/
theorem findSOHidx_mem {l : List Nat} {j e : Nat}
    (h : findSOHidx l j = some e) : 1 ∈ l := by
  induction l generalizing j with
  | nil => simp [findSOHidx] at h
  | cons b rest ih =>
    simp only [findSOHidx] at h
    by_cases hb : b = 1
    · simp [hb]
    · simp [hb] at h
      exact List.mem_cons_of_mem b (ih h)

/-- A successful end-of-frame scan means the SOH byte occurs in the
buffer. -/
theorem find_fix_end_aux_mem {l : List Nat} : ∀ {i e : Nat},
    find_fix_end_aux l i = some e → 1 ∈ l := by
  induction l with
  | nil => intro i e h; rw [find_fix_end_aux_short (by simp)] at h; cases h
  | cons a t ih =>
    intro i e h
    cases t with
    | nil => rw [find_fix_end_aux_short (by simp)] at h; cases h
    | cons b t2 =>
      cases t2 with
      | nil => rw [find_fix_end_aux_short (by simp)] at h; cases h
      | cons c t3 =>
        cases t3 with
        | nil => rw [find_fix_end_aux_short (by simp)] at h; cases h
        | cons d rest =>
          rw [find_fix_end_aux_cons] at h
          by_cases hn : a = 49 ∧ b = 48 ∧ c = 61
          · rw [if_pos hn] at h
            cases hs : findSOHidx (d :: rest) (i + 3) with
            | some j =>
              exact List.mem_cons_of_mem a (List.mem_cons_of_mem b
                (List.mem_cons_of_mem c (findSOHidx_mem hs)))
            | none =>
              rw [hs] at h
              exact List.mem_cons_of_mem a (ih h)
          · rw [if_neg hn] at h
            exact List.mem_cons_of_mem a (ih h)

/-- Appending bytes to a buffer does not change a successful
end-of-frame scan: the first complete frame found in a prefix is also
the first complete frame found in any extension. -/
theorem find_fix_end_aux_append {l : List Nat} : ∀ {y : List Nat} {i e : Nat},
    find_fix_end_aux l i = some e → find_fix_end_aux (l ++ y) i = some e := by
  induction l with
  | nil => intro y i e h; rw [find_fix_end_aux_short (by simp)] at h; cases h
  | cons a t ih =>
    intro y i e h
    cases t with
    | nil => rw [find_fix_end_aux_short (by simp)] at h; cases h
    | cons b t2 =>
      cases t2 with
      | nil => rw [find_fix_end_aux_short (by simp)] at h; cases h
      | cons c t3 =>
        cases t3 with
        | nil => rw [find_fix_end_aux_short (by simp)] at h; cases h
        | cons d rest =>
          rw [find_fix_end_aux_cons] at h
          simp only [List.cons_append]
          rw [find_fix_end_aux_cons]
          by_cases hn : a = 49 ∧ b = 48 ∧ c = 61
          · rw [if_pos hn] at h ⊢
            cases hs : findSOHidx (d :: rest) (i + 3) with
            | some j =>
              rw [hs] at h
              have hs2 : findSOHidx ((d :: rest) ++ y) (i + 3) = some j :=
                findSOHidx_append hs
              simp only [List.cons_append] at hs2
              rw [hs2]
              exact h
            | none =>
              rw [hs] at h
              have h1 : (1 : Nat) ∈ b :: c :: d :: rest := find_fix_end_aux_mem h
              have h2 : ¬ (1 : Nat) ∈ d :: rest := findSOHidx_none hs
              have hb : b = 48 := hn.2.1
              have hc : c = 61 := hn.2.2
              simp [hb, hc] at h1
              simp [List.mem_cons] at h2
              tauto
          · rw [if_neg hn] at h ⊢
            have h2 := ih (y := y) h
            simpa using h2

/-- `find_fix_end` is stable under appending bytes. -/
theorem find_fix_end_append {x y : List Nat} {e : Nat}
    (h : find_fix_end x = some e) : find_fix_end (x ++ y) = some e :=
  find_fix_end_aux_append h

/-- Bound for `find_fix_end`. -/
theorem find_fix_end_lt {x : List Nat} {e : Nat}
    (h : find_fix_end x = some e) : e < x.length := by
  have := find_fix_end_aux_lt h
  omega

/-- The frame-draining loop of `handle_fix_connection`:
`while let Some(end_idx) = find_fix_end(&acc)` drain the bytes through
`end_idx` as one complete frame (`acc.drain(..=end_idx)`), and keep the
rest buffered.  Returns the drained frames in order and the final
buffered remainder. -/
def extractFuel : Nat → List Nat → List (List Nat) × List Nat
  | 0, acc => ([], acc)
  | fuel + 1, acc =>
    match find_fix_end acc with
    | some e =>
      let p := extractFuel fuel (acc.drop (e + 1))
      (acc.take (e + 1) :: p.1, p.2)
    | none => ([], acc)

/-- The drain loop itself; the fuel of `extractFuel` only bounds the
number of loop iterations, and the buffer length is always enough since
every drained frame is nonempty. -/
def extract (acc : List Nat) : List (List Nat) × List Nat :=
  extractFuel acc.length acc

/-- Any sufficiently large fuel runs the drain loop to completion. -/
theorem extractFuel_adequate : ∀ f1 f2 acc, acc.length ≤ f1 → acc.length ≤ f2 →
    extractFuel f1 acc = extractFuel f2 acc := by
  intro f1
  induction f1 with
  | zero =>
    intro f2 acc h1 h2
    have hlen : acc.length = 0 := by omega
    have hnil : acc = [] := List.eq_nil_of_length_eq_zero hlen
    subst hnil
    cases f2 with
    | zero => rfl
    | succ f2 =>
      have hfe : find_fix_end ([] : List Nat) = none := by
        cases hh : find_fix_end ([] : List Nat) with
        | none => rfl
        | some e =>
          have := find_fix_end_lt hh
          simp at this
      simp [extractFuel, hfe]
  | succ f1 ih =>
    intro f2 acc h1 h2
    cases f2 with
    | zero =>
      have hlen : acc.length = 0 := by omega
      have hnil : acc = [] := List.eq_nil_of_length_eq_zero hlen
      subst hnil
      have hfe : find_fix_end ([] : List Nat) = none := by
        cases hh : find_fix_end ([] : List Nat) with
        | none => rfl
        | some e =>
          have := find_fix_end_lt hh
          simp at this
      simp [extractFuel, hfe]
    | succ f2 =>
      cases hfe : find_fix_end acc with
      | none => simp [extractFuel, hfe]
      | some e =>
        have hlt : e < acc.length := find_fix_end_lt hfe
        have hd : (acc.drop (e + 1)).length ≤ f1 := by
          simp [List.length_drop]
          omega
        have hd2 : (acc.drop (e + 1)).length ≤ f2 := by
          simp [List.length_drop]
          omega
        simp only [extractFuel, hfe]
        rw [ih f2 (acc.drop (e + 1)) hd hd2]

/-- Equation for `extract` when a complete frame is present. -/
theorem extract_some {acc : List Nat} {e : Nat} (h : find_fix_end acc = some e) :
    extract acc = ((acc.take (e + 1)) :: (extract (acc.drop (e + 1))).1,
      (extract (acc.drop (e + 1))).2) := by
  have hlt : e < acc.length := find_fix_end_lt h
  cases hl : acc.length with
  | zero => omega
  | succ k =>
    have hdl : (acc.drop (e + 1)).length ≤ k := by
      simp [List.length_drop]
      omega
    have ha : extractFuel k (acc.drop (e + 1)) = extract (acc.drop (e + 1)) :=
      extractFuel_adequate k (acc.drop (e + 1)).length (acc.drop (e + 1)) hdl (le_refl _)
    simp only [extract, hl, extractFuel, h]
    rw [ha]
    rfl

/-- Equation for `extract` when no complete frame is present. -/
theorem extract_none {acc : List Nat} (h : find_fix_end acc = none) :
    extract acc = ([], acc) := by
  cases hl : acc.length with
  | zero =>
    have hnil : acc = [] := List.eq_nil_of_length_eq_zero hl
    subst hnil
    rfl
  | succ k => simp only [extract, hl, extractFuel, h]

/-- The leftover kept by `extract` never contains a complete frame. -/
theorem extract_leftover (acc : List Nat) :
    find_fix_end (extract acc).2 = none := by
  by_cases h : ∃ e, find_fix_end acc = some e
  · obtain ⟨e, he⟩ := h
    rw [extract_some he]
    have h1 : (acc.drop (e + 1)).length < acc.length := by
      have := find_fix_end_lt he
      simp [List.length_drop]
      omega
    exact extract_leftover (acc.drop (e + 1))
  · have hn : find_fix_end acc = none := by
      cases hh : find_fix_end acc with
      | some e => exact absurd ⟨e, hh⟩ h
      | none => rfl
    rw [extract_none hn]
    exact hn
termination_by acc.length

/-- Splitting a byte stream anywhere: extracting frames from `x ++ y`
first drains every frame of `x`, then continues on `x`'s leftover glued
to `y`. -/
theorem extract_append (x : List Nat) : ∀ y : List Nat,
    extract (x ++ y) = ((extract x).1 ++ (extract ((extract x).2 ++ y)).1,
      (extract ((extract x).2 ++ y)).2) := by
  intro y
  cases hfe : find_fix_end x with
  | none =>
    rw [extract_none hfe]
    simp
  | some e =>
    have hlt : e < x.length := find_fix_end_lt hfe
    have hfe2 : find_fix_end (x ++ y) = some e := find_fix_end_append hfe
    rw [extract_some hfe, extract_some hfe2]
    have htake : (x ++ y).take (e + 1) = x.take (e + 1) := by
      rw [List.take_append_eq_append_take]
      have : e + 1 - x.length = 0 := by omega
      simp [this]
    have hdrop : (x ++ y).drop (e + 1) = x.drop (e + 1) ++ y := by
      rw [List.drop_append_eq_append_drop]
      have : e + 1 - x.length = 0 := by omega
      simp [this]
    have h1 : (x.drop (e + 1)).length < x.length := by
      simp [List.length_drop]
      omega
    have ih := extract_append (x.drop (e + 1)) y
    rw [htake, hdrop, ih]
    simp
termination_by x.length

/-- One iteration of the read loop of `handle_fix_connection`: append the
newly read chunk to the accumulator (`acc.extend_from_slice`), drain all
complete frames, and append them to the frames already produced. -/
def feedChunk (st : List (List Nat) × List Nat) (chunk : List Nat) :
    List (List Nat) × List Nat :=
  let p := extract (st.2 ++ chunk)
  (st.1 ++ p.1, p.2)

/-- Feeding a whole sequence of chunks to a fresh reassembler (empty
accumulator, no frames yet), as the connection loop does across
successive reads. -/
def feedAll (chunks : List (List Nat)) : List (List Nat) × List Nat :=
  chunks.foldl feedChunk ([], [])

/-- Folding the feed loop from any state whose buffered leftover holds
no complete frame produces exactly the frames of the leftover glued to
the concatenated remaining input. -/
theorem feedChunk_foldl (cs : List (List Nat)) : ∀ (fs : List (List Nat)) (r : List Nat),
    find_fix_end r = none →
    cs.foldl feedChunk (fs, r) =
      (fs ++ (extract (r ++ cs.flatten)).1, (extract (r ++ cs.flatten)).2) := by
  induction cs with
  | nil =>
    intro fs r hr
    simp [List.foldl, extract_none hr]
  | cons c cs ih =>
    intro fs r hr
    have hstep : feedChunk (fs, r) c = (fs ++ (extract (r ++ c)).1, (extract (r ++ c)).2) := rfl
    have hleft : find_fix_end (extract (r ++ c)).2 = none := extract_leftover (r ++ c)
    calc (c :: cs).foldl feedChunk (fs, r)
        = cs.foldl feedChunk (feedChunk (fs, r) c) := by simp [List.foldl]
      _ = (fs ++ (extract (r ++ c)).1 ++ (extract ((extract (r ++ c)).2 ++ cs.flatten)).1,
            (extract ((extract (r ++ c)).2 ++ cs.flatten)).2) := by
          rw [hstep, ih _ _ hleft]
      _ = (fs ++ (extract (r ++ (c :: cs).flatten)).1,
            (extract (r ++ (c :: cs).flatten)).2) := by
          have hjoin : r ++ (c :: cs).flatten = (r ++ c) ++ cs.flatten := by
            simp [List.flatten, List.append_assoc]
          rw [hjoin, extract_append (r ++ c) cs.flatten]
          simp [List.append_assoc]

/-! ## Message decoder (src/main.rs, parse_fix_spike) -/

/-- `raw.split(|b| *b == SOH)`: split the frame at every SOH byte.  As in
Rust, `n` separators yield `n + 1` (possibly empty) pieces, so a frame
ending in SOH yields a final empty piece. -/
def splitSOH : List Nat → List (List Nat)
  | [] => [[]]
  | b :: rest =>
    if b = 1 then [] :: splitSOH rest
    else
      match splitSOH rest with
      | f :: fs => (b :: f) :: fs
      | [] => [[b]]

/-- `HashMap::insert` on the tag map, modelled as an association list
with no duplicate keys: the new binding is put in front and any previous
binding of the same tag is dropped (last write wins). -/
def insertTag (m : List (Int × List Nat)) (k : Int) (v : List Nat) :
    List (Int × List Nat) :=
  (k, v) :: m.filter (fun p => !(p.1 == k))

/-- `HashMap::get` on the tag map. -/
def findTag (m : List (Int × List Nat)) (k : Int) : Option (List Nat) :=
  m.lookup k

/-- The field loop of `parse_fix_spike`: for each piece, skip it when it
is empty or has no `=` byte; otherwise split at the first `=`, parse the
left side as an `i32` tag and check the right side is UTF-8, rejecting
the whole message (`None`) when either fails; insert the binding. -/
def mapAux : List (List Nat) → List (Int × List Nat) → Option (List (Int × List Nat))
  | [], m => some m
  | f :: fs, m =>
    if f = [] then mapAux fs m
    else
      match f.findIdx? (fun b => b == 61) with
      | none => mapAux fs m
      | some eq =>
        match parseI32 (f.take eq) with
        | none => none
        | some key =>
          if utf8Valid (f.drop (eq + 1)) then
            mapAux fs (insertTag m key (f.drop (eq + 1)))
          else none

/-- The tag map built by `parse_fix_spike` from a raw frame, or `None`
when a malformed field rejects the whole message. -/
def mapOf (raw : List Nat) : Option (List (Int × List Nat)) :=
  mapAux (splitSOH raw) []

/-- A parsed RFC 3339 timestamp.  Modelled from the external `chrono`
dependency (`DateTime::parse_from_rfc3339`), which is not part of this
repository: date and time fields plus an offset in minutes.  Every claim
proved below depends only on whether this parse succeeds or fails, never
on the parsed value. -/
structure Rfc3339 where
  year : Nat
  month : Nat
  day : Nat
  hour : Nat
  minute : Nat
  second : Nat
  offMin : Int
deriving DecidableEq, Repr

/-- Read exactly two ASCII digits. -/
def digit2 : List Nat → Option (Nat × List Nat)
  | a :: b :: r =>
    if isDigit a && isDigit b then some ((a - 48) * 10 + (b - 48), r) else none
  | _ => none

/-- Read exactly four ASCII digits. -/
def digit4 : List Nat → Option (Nat × List Nat)
  | a :: b :: c :: d :: r =>
    if isDigit a && isDigit b && isDigit c && isDigit d then
      some (((a - 48) * 10 + (b - 48)) * 100 + (c - 48) * 10 + (d - 48), r)
    else none
  | _ => none

/-- Expect one given byte. -/
def expectByte (b : Nat) : List Nat → Option (List Nat)
  | x :: r => if x = b then some r else none
  | [] => none

/-- The timezone-offset tail of an RFC 3339 timestamp: `Z`/`z`, or a
signed `hh:mm` offset; nothing may follow. -/
def parseOffset : List Nat → Option Int
  | [90] => some 0
  | [122] => some 0
  | s :: r =>
    if s = 43 ∨ s = 45 then
      match digit2 r with
      | some (h, r2) =>
        match expectByte 58 r2 with
        | some r3 =>
          match digit2 r3 with
          | some (m, r4) =>
            if r4 = [] ∧ h ≤ 23 ∧ m ≤ 59 then
              some (if s = 45 then -((h * 60 + m : Nat) : Int) else ((h * 60 + m : Nat) : Int))
            else none
          | none => none
        | none => none
      | none => none
    else none
  | [] => none

/-- Modelled from the external `chrono` dependency:
`DateTime::parse_from_rfc3339` accepts `YYYY-MM-DDTHH:MM:SS`, an
optional fractional-seconds part, and a timezone offset, with in-range
date and time components; anything else fails.  The claims below use
only the success/failure of this parse. -/
def parse_from_rfc3339 (l : List Nat) : Option Rfc3339 :=
  match digit4 l with
  | none => none
  | some (y, r1) =>
    match expectByte 45 r1 with
    | none => none
    | some r2 =>
      match digit2 r2 with
      | none => none
      | some (mo, r3) =>
        match expectByte 45 r3 with
        | none => none
        | some r4 =>
          match digit2 r4 with
          | none => none
          | some (d, r5) =>
            match r5 with
            | t :: r6 =>
              if t = 84 ∨ t = 116 then
                match digit2 r6 with
                | none => none
                | some (h, r7) =>
                  match expectByte 58 r7 with
                  | none => none
                  | some r8 =>
                    match digit2 r8 with
                    | none => none
                    | some (mi, r9) =>
                      match expectByte 58 r9 with
                      | none => none
                      | some r10 =>
                        match digit2 r10 with
                        | none => none
                        | some (s, r11) =>
                          let r12 :=
                            match r11 with
                            | 46 :: fr =>
                              if fr.takeWhile isDigit = [] then none
                              else some (fr.dropWhile isDigit)
                            | other => some other
                          match r12 with
                          | none => none
                          | some r13 =>
                            match parseOffset r13 with
                            | none => none
                            | some off =>
                              if 1 ≤ mo ∧ mo ≤ 12 ∧ 1 ≤ d ∧ d ≤ 31 ∧
                                  h ≤ 23 ∧ mi ≤ 59 ∧ s ≤ 60 then
                                some ⟨y, mo, d, h, mi, s, off⟩
                              else none
              else none
            | [] => none

/-- The decoded event (`ExternalSpike` of the source): clamped position,
actor, optional free-text message, optional parsed timestamp. -/
structure ExternalSpike where
  pos : Fl × Fl
  who : List Nat
  message : Option (List Nat)
  when : Option Rfc3339
deriving DecidableEq, Repr

/-- The checks and extraction `parse_fix_spike` performs once the tag
map is built: `35` must be `U1`, `55` must be `NKISI`, `448`/`6010`/
`6011` are required (the positions must parse as floats), `58` and `60`
are optional, and the position is clamped into the figure box
`[0, FIGURE_W] x [0, FIGURE_H]` with `FIGURE_W = 100`, `FIGURE_H = 150`. -/
def parseFromMap (m : List (Int × List Nat)) : Option ExternalSpike :=
  match findTag m 35 with
  | none => none
  | some msg_type =>
    if msg_type ≠ [85, 49] then none
    else if findTag m 55 ≠ some [78, 75, 73, 83, 73] then none
    else
      match findTag m 448 with
      | none => none
      | some who =>
        match findTag m 6010 with
        | none => none
        | some xs =>
          match parseF32 xs with
          | none => none
          | some x =>
            match findTag m 6011 with
            | none => none
            | some ys =>
              match parseF32 ys with
              | none => none
              | some y =>
                some ⟨(fclamp x 0 100, fclamp y 0 150), who,
                  findTag m 58, (findTag m 60).bind parse_from_rfc3339⟩

/-- `parse_fix_spike` of the source: build the tag map from the raw
frame, then validate and extract the spike event. -/
def parse_fix_spike (raw : List Nat) : Option ExternalSpike :=
  match mapOf raw with
  | none => none
  | some m => parseFromMap m

/-! ## Encoder normal form -/

/-- The bytes of the encoder's buffer between the end of the `9=…` field
and the checksum field: the `35=SPK`, `100=…`, `101=…`, `102=…` and
`52=…` fields.  This is exactly the body region measured by the
body-length computation. -/
def bodyBytes (spike_id : Nat) (who note ts : List Nat) : List Nat :=
  [51, 53, 61, 83, 80, 75, 1, 49, 48, 48, 61] ++ natDigits spike_id ++
    [1, 49, 48, 49, 61] ++ who ++ [1, 49, 48, 50, 61] ++ note ++
    [1, 53, 50, 61] ++ ts ++ [1]

/-- The raw buffer is the fixed 16-byte header (`8=FIX.4.2`, `9=000`)
followed by the body. -/
theorem rawMsg_eq (spike_id : Nat) (who note ts : List Nat) :
    rawMsg spike_id who note ts =
      [56, 61, 70, 73, 88, 46, 52, 46, 50, 1, 57, 61, 48, 48, 48, 1] ++
        bodyBytes spike_id who note ts := by
  simp only [rawMsg, push_fix_field, bodyBytes, List.append_assoc, List.nil_append]
  rfl

/-- On any buffer starting with the fixed header, `find_after_bodylen`
finds the first `9=` at position 10 and the following SOH at position
15, so the body starts at position 16. -/
theorem find_after_bodylen_run (rest : List Nat) :
    find_after_bodylen
      ([56, 61, 70, 73, 88, 46, 52, 46, 50, 1, 57, 61, 48, 48, 48, 1] ++ rest) =
      some 16 := rfl

/-- On any buffer starting with the fixed header, the in-place rewrite
replaces the `000` placeholder with the given digits and keeps
everything else. -/
theorem wblAux_run (digits rest : List Nat) :
    wblAux digits []
      ([56, 61, 70, 73, 88, 46, 52, 46, 50, 1, 57, 61, 48, 48, 48, 1] ++ rest) =
      some ([56, 61, 70, 73, 88, 46, 52, 46, 50, 1] ++ [57, 61] ++ digits ++ 1 :: rest) :=
  rfl

/-- The complete frame produced by a successful
`build_spike_message spike_id who note ts`: header with the rewritten
body length, body, and checksum trailer. -/
def frameOf (spike_id : Nat) (who note ts : List Nat) : List Nat :=
  ([56, 61, 70, 73, 88, 46, 52, 46, 50, 1, 57, 61] ++
      natDigits (bodyBytes spike_id who note ts).length ++ [1] ++
      bodyBytes spike_id who note ts) ++
    [49, 48, 61] ++
    pad3 (checksum ([56, 61, 70, 73, 88, 46, 52, 46, 50, 1, 57, 61] ++
      natDigits (bodyBytes spike_id who note ts).length ++ [1] ++
      bodyBytes spike_id who note ts)) ++ [1]

/-- `build_spike_message` always succeeds and produces `frameOf`. -/
theorem build_eq (spike_id : Nat) (who note ts : List Nat) :
    build_spike_message spike_id who note ts = some (frameOf spike_id who note ts) := by
  have hraw := rawMsg_eq spike_id who note ts
  have hlen : (rawMsg spike_id who note ts).length - 16 =
      (bodyBytes spike_id who note ts).length := by
    rw [hraw]
    simp [List.length_append]
  unfold build_spike_message
  rw [hraw]
  simp only [find_after_bodylen_run]
  have hlen2 : ([56, 61, 70, 73, 88, 46, 52, 46, 50, 1, 57, 61, 48, 48, 48, 1] ++
      bodyBytes spike_id who note ts).length - 16 =
      (bodyBytes spike_id who note ts).length := by
    simp [List.length_append]
  rw [hlen2]
  unfold write_bodylen_in_place
  rw [wblAux_run]
  simp only [push_fix_field, frameOf, List.append_assoc, List.cons_append, List.nil_append]
  rfl

/-! ## Decimal rendering facts -/

/-- Every byte of a decimal rendering is an ASCII digit. -/
theorem natDigits_mem : ∀ n : Nat, ∀ b ∈ natDigits n, 48 ≤ b ∧ b ≤ 57 := by
  intro n
  induction n using Nat.strong_induction_on with
  | _ n ih =>
    intro b hb
    rw [natDigits_eq] at hb
    by_cases hlt : n < 10
    · rw [if_pos hlt] at hb
      simp at hb
      omega
    · rw [if_neg hlt] at hb
      simp at hb
      cases hb with
      | inl hmem =>
        exact ih (n / 10) (Nat.div_lt_self (by omega) (by omega)) b hmem
      | inr heq =>
        have : n % 10 < 10 := Nat.mod_lt n (by omega)
        omega

/-- Appending one digit multiplies the value by ten and adds it. -/
theorem decValue_snoc (l : List Nat) (d : Nat) :
    decValue (l ++ [d]) = 10 * decValue l + (d - 48) := by
  simp [decValue, List.foldl_append]
  omega

/-- Reading back the decimal rendering gives the number. -/
theorem decValue_natDigits : ∀ n : Nat, decValue (natDigits n) = n := by
  intro n
  induction n using Nat.strong_induction_on with
  | _ n ih =>
    rw [natDigits_eq]
    by_cases hlt : n < 10
    · rw [if_pos hlt]
      simp [decValue]
    · rw [if_neg hlt]
      rw [decValue_snoc, ih (n / 10) (Nat.div_lt_self (by omega) (by omega))]
      have := Nat.div_add_mod n 10
      have : n % 10 < 10 := Nat.mod_lt n (by omega)
      omega

/-- Digit count of the decimal rendering. -/
theorem natDigits_length_le : ∀ k n : Nat, 1 ≤ k → n < 10 ^ k →
    (natDigits n).length ≤ k := by
  intro k
  induction k with
  | zero => omega
  | succ k ih =>
    intro n _ hn
    rw [natDigits_eq]
    by_cases hlt : n < 10
    · simp [hlt]
    · rw [if_neg hlt]
      have hk : 1 ≤ k := by
        by_contra hk0
        have : k = 0 := by omega
        subst this
        simp [pow_succ, pow_zero] at hn
        omega
      have hdiv : n / 10 < 10 ^ k := by
        rw [Nat.div_lt_iff_lt_mul (by omega)]
        calc n < 10 ^ (k + 1) := hn
          _ = 10 ^ k * 10 := by rw [pow_succ]
      have := ih (n / 10) hk hdiv
      simp [List.length_append]
      omega

/-- The checksum is always below 256. -/
theorem checksum_lt (l : List Nat) : checksum l < 256 :=
  Nat.mod_lt _ (by omega)

/-- The three-digit rendering of a checksum has exactly three bytes. -/
theorem pad3_length {n : Nat} (h : n < 1000) : (pad3 n).length = 3 := by
  have hle : (natDigits n).length ≤ 3 :=
    natDigits_length_le 3 n (by omega) (by norm_num; omega)
  simp [pad3, List.length_append, List.length_replicate]
  omega

/-- Leading zero padding does not change the decimal value. -/
theorem decValue_replicate (k : Nat) (l : List Nat) :
    decValue (List.replicate k 48 ++ l) = decValue l := by
  have hz : ∀ m : Nat, List.foldl (fun a b => a * 10 + (b - 48)) 0
      (List.replicate m 48) = 0 := by
    intro m
    induction m with
    | zero => rfl
    | succ m ihm => simpa [List.replicate_succ] using ihm
  simp [decValue, List.foldl_append, hz]

/-- Reading back the zero-padded rendering gives the number. -/
theorem decValue_pad3 (n : Nat) : decValue (pad3 n) = n := by
  rw [pad3, decValue_replicate, decValue_natDigits]

/-! ## Decoder facts -/

/-- Pure ASCII byte lists are valid UTF-8. -/
theorem utf8Valid_ascii : ∀ l : List Nat, (∀ b ∈ l, b ≤ 127) → utf8Valid l = true := by
  intro l
  induction l with
  | nil => intro _; rfl
  | cons b rest ih =>
    intro h
    have hb : b ≤ 127 := h b (by simp)
    have hneed : utf8Need b = some [] := by simp [utf8Need, hb]
    have he : utf8Valid (b :: rest) = utf8Valid rest := by
      simp only [utf8Valid, utf8ValidAux, hneed]
    rw [he]
    exact ih (fun x hx => h x (by simp [hx]))

/-- Splitting at SOH peels off one SOH-free field at a time. -/
theorem splitSOH_append : ∀ a rest : List Nat, (∀ b ∈ a, b ≠ 1) →
    splitSOH (a ++ 1 :: rest) = a :: splitSOH rest := by
  intro a
  induction a with
  | nil =>
    intro rest _
    show splitSOH (1 :: rest) = [] :: splitSOH rest
    rfl
  | cons x a ih =>
    intro rest h
    have hx : x ≠ 1 := h x (by simp)
    have hrec := ih rest (fun b hb => h b (by simp [hb]))
    show splitSOH (x :: (a ++ 1 :: rest)) = (x :: a) :: splitSOH rest
    rw [splitSOH, if_neg hx, hrec]

/-- A fresh insertion is found first. -/
theorem findTag_insert_self (m : List (Int × List Nat)) (k : Int) (v : List Nat) :
    findTag (insertTag m k v) k = some v := by
  simp [findTag, insertTag, List.lookup]

/-- Insertions under a different tag do not disturb a lookup. -/
theorem findTag_insert_ne (m : List (Int × List Nat)) (k t : Int) (v : List Nat)
    (h : t ≠ k) : findTag (insertTag m k v) t = findTag m t := by
  simp only [findTag, insertTag, List.lookup]
  have hbeq : (t == k) = false := by simp [h]
  rw [hbeq]
  induction m with
  | nil => simp
  | cons p m ih =>
    by_cases hp : p.1 = k
    · have : (p.1 == k) = true := by simp [hp]
      have ht : (t == p.1) = false := by simp [hp, h]
      cases p with
      | mk k1 v1 =>
        simp at hp
        subst hp
        simp only [List.filter_cons, this]
        simp only [List.lookup, ht]
        exact ih
    · have : (p.1 == k) = false := by simp [hp]
      cases p with
      | mk k1 v1 =>
        simp at hp this
        simp only [List.filter_cons]
        simp [this]
        by_cases ht : t = k1
        · simp [List.lookup, ht]
        · have ht2 : (t == k1) = false := by simp [ht]
          simp only [List.lookup, ht2]
          exact ih

/-- The tag a field would insert, when the field is kept and well
formed: position of the first `=`, then the `i32` parse of the key. -/
def fieldKey (f : List Nat) : Option Int :=
  if f = [] then none
  else (f.findIdx? (fun b => b == 61)).bind (fun eq => parseI32 (f.take eq))

/-- Processing fields none of which can bind tag `t` either rejects the
message or leaves tag `t`'s binding unchanged. -/
theorem mapAux_preserve (t : Int) : ∀ fields : List (List Nat),
    ∀ m : List (Int × List Nat),
    (∀ f ∈ fields, ∀ k, fieldKey f = some k → k ≠ t) →
    mapAux fields m = none ∨
      ∃ m2, mapAux fields m = some m2 ∧ findTag m2 t = findTag m t := by
  intro fields
  induction fields with
  | nil =>
    intro m _
    exact Or.inr ⟨m, rfl, rfl⟩
  | cons f fs ih =>
    intro m h
    by_cases hemp : f = []
    · have he : mapAux (f :: fs) m = mapAux fs m := by
        simp only [mapAux, if_pos hemp]
      rw [he]
      exact ih m (fun g hg => h g (by simp [hg]))
    · cases hidx : f.findIdx? (fun b => b == 61) with
      | none =>
        have he : mapAux (f :: fs) m = mapAux fs m := by
          simp only [mapAux, if_neg hemp, hidx]
        rw [he]
        exact ih m (fun g hg => h g (by simp [hg]))
      | some eq =>
        cases hkey : parseI32 (f.take eq) with
        | none =>
          have he : mapAux (f :: fs) m = none := by
            simp only [mapAux, if_neg hemp, hidx, hkey]
          rw [he]
          exact Or.inl rfl
        | some key =>
          by_cases hval : utf8Valid (f.drop (eq + 1)) = true
          · have he : mapAux (f :: fs) m =
                mapAux fs (insertTag m key (f.drop (eq + 1))) := by
              simp only [mapAux, if_neg hemp, hidx, hkey, if_pos hval]
            rw [he]
            have hk : key ≠ t := by
              apply h f (by simp) key
              simp [fieldKey, if_neg hemp, hidx, hkey]
            have hrec := ih (insertTag m key (f.drop (eq + 1)))
              (fun g hg => h g (by simp [hg]))
            cases hrec with
            | inl hnone => exact Or.inl hnone
            | inr hsome =>
              obtain ⟨m2, hm2, hfind⟩ := hsome
              refine Or.inr ⟨m2, hm2, ?_⟩
              rw [hfind, findTag_insert_ne m key t _ (fun he2 => hk he2.symm)]
          · have he : mapAux (f :: fs) m = none := by
              simp only [mapAux, if_neg hemp, hidx, hkey, if_neg hval]
            rw [he]
            exact Or.inl rfl

/-- Full characterization of a successful decode from the tag map:
exactly the required tags with the right literals and parses, and the
event is built from the clamped positions, the actor, and the optional
tags. -/
theorem parseFromMap_some_iff {m : List (Int × List Nat)} {ev : ExternalSpike} :
    parseFromMap m = some ev ↔
      ∃ who xs ys x y,
        findTag m 35 = some [85, 49] ∧
        findTag m 55 = some [78, 75, 73, 83, 73] ∧
        findTag m 448 = some who ∧
        findTag m 6010 = some xs ∧ parseF32 xs = some x ∧
        findTag m 6011 = some ys ∧ parseF32 ys = some y ∧
        ev = ⟨(fclamp x 0 100, fclamp y 0 150), who, findTag m 58,
          (findTag m 60).bind parse_from_rfc3339⟩ := by
  constructor
  · intro h
    cases h35 : findTag m 35 with
    | none => simp [parseFromMap, h35] at h
    | some mt =>
      simp only [parseFromMap, h35] at h
      by_cases hmt : mt = [85, 49]
      · subst hmt
        rw [if_neg (by simp)] at h
        by_cases h55 : findTag m 55 = some [78, 75, 73, 83, 73]
        · rw [if_neg (by simp [h55])] at h
          cases h448 : findTag m 448 with
          | none =>
            simp only [h448] at h
            exact Option.noConfusion h
          | some who =>
            simp only [h448] at h
            cases h6010 : findTag m 6010 with
            | none =>
            simp only [h6010] at h
            exact Option.noConfusion h
            | some xs =>
              simp only [h6010] at h
              cases hx : parseF32 xs with
              | none =>
            simp only [hx] at h
            exact Option.noConfusion h
              | some x =>
                simp only [hx] at h
                cases h6011 : findTag m 6011 with
                | none =>
            simp only [h6011] at h
            exact Option.noConfusion h
                | some ys =>
                  simp only [h6011] at h
                  cases hy : parseF32 ys with
                  | none =>
            simp only [hy] at h
            exact Option.noConfusion h
                  | some y =>
                    simp only [hy, Option.some.injEq] at h
                    exact ⟨who, xs, ys, x, y, rfl, h55, rfl, rfl, hx,
                      rfl, hy, h.symm⟩
        · rw [if_pos (by simp [h55])] at h
          cases h
      · rw [if_pos hmt] at h
        cases h
  · rintro ⟨who, xs, ys, x, y, h35, h55, h448, h6010, hx, h6011, hy, hev⟩
    subst hev
    simp [parseFromMap, h35, h55, h448, h6010, hx, h6011, hy]

/-- The clamp either propagates NaN or lands inside the interval. -/
theorem fclamp_cases (x : Fl) (lo hi : ℚ) (hlh : lo ≤ hi) :
    fclamp x lo hi = Fl.nan ∨ flInBounds lo hi (fclamp x lo hi) = true := by
  cases x with
  | nan => exact Or.inl rfl
  | inf =>
    refine Or.inr ?_
    simp [fclamp, flInBounds, hlh]
  | neginf =>
    refine Or.inr ?_
    simp [fclamp, flInBounds, hlh]
  | fin q =>
    refine Or.inr ?_
    rw [fclamp]
    by_cases hlo : q < lo
    · rw [if_pos hlo]
      simp [flInBounds, hlh]
    · rw [if_neg hlo]
      by_cases hhi : q > hi
      · rw [if_pos hhi]
        simp [flInBounds, hlh]
      · rw [if_neg hhi]
        have h1 : lo ≤ q := le_of_not_lt hlo
        have h2 : q ≤ hi := le_of_not_lt hhi
        simp [flInBounds, h1, h2]

/-! ## Concrete inputs used by witnesses and counterexamples -/

/-- The bytes of the actor string `alice`. -/
def aliceB : List Nat := [97, 108, 105, 99, 101]

/-- The bytes of the note string `test`. -/
def testB : List Nat := [116, 101, 115, 116]

/-- The bytes of a sending-time string `20250101-00:00:00` in the
encoder's `%Y%m%d-%H:%M:%S` format. -/
def tsB : List Nat :=
  [50, 48, 50, 53, 48, 49, 48, 49, 45, 48, 48, 58, 48, 48, 58, 48, 48]

/-- The concrete frame the encoder produces for spike id 7, actor
`alice`, note `test` and the sending time above. -/
def c1frame : List Nat := (build_spike_message 7 aliceB testB tsB).getD []

/-! ## Claim theorems -/

/-- C2.  Chunking invariance: feeding any chunk decomposition of a byte
stream to the reassembler yields exactly the frames (and leftover) of
feeding the concatenated stream as one chunk.  This is proved for every
byte stream and every decomposition, in particular for valid streams of
complete frames split into non-empty chunks as the claim states. -/
theorem chunking_invariance (chunks : List (List Nat)) :
    feedAll chunks = feedAll [chunks.flatten] := by
  have h1 := feedChunk_foldl chunks [] [] rfl
  have h2 : feedAll [chunks.flatten] =
      (([] : List (List Nat)) ++ (extract ([] ++ chunks.flatten)).1,
        (extract ([] ++ chunks.flatten)).2) := rfl
  rw [feedAll, h1, h2]

/-- C3.  Checksum law: every frame built by `build_spike_message` ends
in a checksum field whose value is the byte sum of everything before
that field reduced modulo 256, rendered as exactly three digits. -/
theorem checksum_law (spike_id : Nat) (who note ts f : List Nat)
    (h : build_spike_message spike_id who note ts = some f) :
    f = f.take (f.length - 7) ++ [49, 48, 61] ++
        pad3 (checksum (f.take (f.length - 7))) ++ [1] ∧
    (pad3 (checksum (f.take (f.length - 7)))).length = 3 ∧
    decValue (pad3 (checksum (f.take (f.length - 7)))) =
      (f.take (f.length - 7)).foldl (· + ·) 0 % 256 := by
  rw [build_eq] at h
  have hf : f = frameOf spike_id who note ts := by
    injection h with h2
    exact h2.symm
  subst hf
  rw [frameOf]
  generalize ([56, 61, 70, 73, 88, 46, 52, 46, 50, 1, 57, 61] ++
      natDigits (bodyBytes spike_id who note ts).length ++ [1] ++
      bodyBytes spike_id who note ts : List Nat) = A
  have hck : checksum A < 1000 := by
    have := checksum_lt A
    omega
  have hp3 := pad3_length hck
  have hlen7 : (A ++ [49, 48, 61] ++ pad3 (checksum A) ++ [1]).length - 7 =
      A.length := by
    simp [List.length_append, hp3]
  have htk : (A ++ [49, 48, 61] ++ pad3 (checksum A) ++ [1]).take
      ((A ++ [49, 48, 61] ++ pad3 (checksum A) ++ [1]).length - 7) = A := by
    rw [hlen7, List.take_append_eq_append_take]
    simp
  rw [htk]
  exact ⟨rfl, hp3, by rw [decValue_pad3, checksum]⟩

/-- C4.  Body-length law: every built frame decomposes as the fixed
header, the digits of the body length, its delimiter, a body of exactly
that many bytes, and the checksum field; reading the digits back yields
the body byte count even though the rewritten digit count differs from
the three-digit placeholder. -/
theorem bodylen_law (spike_id : Nat) (who note ts f : List Nat)
    (h : build_spike_message spike_id who note ts = some f) :
    ∃ body ck : List Nat,
      f = [56, 61, 70, 73, 88, 46, 52, 46, 50, 1, 57, 61] ++
          natDigits body.length ++ [1] ++ body ++ [49, 48, 61] ++ ck ++ [1] ∧
      decValue (natDigits body.length) = body.length ∧
      ck.length = 3 := by
  rw [build_eq] at h
  have hf : f = frameOf spike_id who note ts := by
    injection h with h2
    exact h2.symm
  subst hf
  have hck : checksum ([56, 61, 70, 73, 88, 46, 52, 46, 50, 1, 57, 61] ++
      natDigits (bodyBytes spike_id who note ts).length ++ [1] ++
      bodyBytes spike_id who note ts) < 1000 := by
    have := checksum_lt ([56, 61, 70, 73, 88, 46, 52, 46, 50, 1, 57, 61] ++
      natDigits (bodyBytes spike_id who note ts).length ++ [1] ++
      bodyBytes spike_id who note ts)
    omega
  refine ⟨bodyBytes spike_id who note ts,
    pad3 (checksum ([56, 61, 70, 73, 88, 46, 52, 46, 50, 1, 57, 61] ++
      natDigits (bodyBytes spike_id who note ts).length ++ [1] ++
      bodyBytes spike_id who note ts)), ?_, decValue_natDigits _, pad3_length hck⟩
  rw [frameOf]

/-- C8.  Encoder safety: on every built buffer the body-length field is
located (at position 16, after the fixed header), the in-place rewrite
succeeds, and the whole encode call succeeds — the `expect` panic
branches are unreachable, for all inputs. -/
theorem encoder_never_fails (spike_id : Nat) (who note ts : List Nat) :
    find_after_bodylen (rawMsg spike_id who note ts) = some 16 ∧
    (write_bodylen_in_place (rawMsg spike_id who note ts)
      ((rawMsg spike_id who note ts).length - 16)).isSome = true ∧
    (build_spike_message spike_id who note ts).isSome = true := by
  refine ⟨?_, ?_, ?_⟩
  · rw [rawMsg_eq]
    exact find_after_bodylen_run _
  · rw [write_bodylen_in_place, rawMsg_eq, wblAux_run]
    rfl
  · rw [build_eq]
    rfl

set_option maxRecDepth 10000 in
/-- C3 witness: the checksum law evaluated on the concrete frame for
spike id 7, actor `alice`, note `test`. -/
theorem checksum_law_witness :
    c1frame = c1frame.take (c1frame.length - 7) ++ [49, 48, 61] ++
        pad3 (checksum (c1frame.take (c1frame.length - 7))) ++ [1] ∧
    (pad3 (checksum (c1frame.take (c1frame.length - 7)))).length = 3 ∧
    decValue (pad3 (checksum (c1frame.take (c1frame.length - 7)))) =
      (c1frame.take (c1frame.length - 7)).foldl (· + ·) 0 % 256 :=
  checksum_law 7 aliceB testB tsB c1frame (by decide)

set_option maxRecDepth 10000 in
/-- C4 witness: the body-length law evaluated on the same concrete
frame. -/
theorem bodylen_law_witness :
    ∃ body ck : List Nat,
      c1frame = [56, 61, 70, 73, 88, 46, 52, 46, 50, 1, 57, 61] ++
          natDigits body.length ++ [1] ++ body ++ [49, 48, 61] ++ ck ++ [1] ∧
      decValue (natDigits body.length) = body.length ∧
      ck.length = 3 :=
  bodylen_law 7 aliceB testB tsB c1frame (by decide)

/-- A frame whose message type is `XX` instead of `U1`:
`35=XX` followed by the delimiter. -/
def c5frame : List Nat := [51, 53, 61, 88, 88, 1]

/-- C5.  Rejection: a frame whose decoded tag map misses a required tag,
carries the wrong message-type or symbol literal, or whose position
values do not parse as floats, decodes to nothing. -/
theorem rejection (raw : List Nat) (m : List (Int × List Nat))
    (hm : mapOf raw = some m)
    (hbad : findTag m 35 ≠ some [85, 49] ∨
      findTag m 55 ≠ some [78, 75, 73, 83, 73] ∨
      findTag m 448 = none ∨
      findTag m 6010 = none ∨
      (∃ v, findTag m 6010 = some v ∧ parseF32 v = none) ∨
      findTag m 6011 = none ∨
      (∃ v, findTag m 6011 = some v ∧ parseF32 v = none)) :
    parse_fix_spike raw = none := by
  cases hp : parse_fix_spike raw with
  | none => rfl
  | some ev =>
    exfalso
    have hpm : parseFromMap m = some ev := by
      simp only [parse_fix_spike, hm] at hp
      exact hp
    rw [parseFromMap_some_iff] at hpm
    obtain ⟨who, xs, ys, x, y, h35, h55, h448, h6010, hx, h6011, hy, _⟩ := hpm
    rcases hbad with hb | hb | hb | hb | hb | hb | hb
    · exact hb h35
    · exact hb h55
    · rw [h448] at hb
      exact Option.noConfusion hb
    · rw [h6010] at hb
      exact Option.noConfusion hb
    · obtain ⟨v, hv, hvn⟩ := hb
      rw [h6010] at hv
      injection hv with hv2
      rw [← hv2, hx] at hvn
      exact Option.noConfusion hvn
    · rw [h6011] at hb
      exact Option.noConfusion hb
    · obtain ⟨v, hv, hvn⟩ := hb
      rw [h6011] at hv
      injection hv with hv2
      rw [← hv2, hy] at hvn
      exact Option.noConfusion hvn

/-- C5 witness: the `35=XX` frame maps to a one-entry tag map and is
rejected. -/
theorem rejection_witness : parse_fix_spike c5frame = none :=
  rejection c5frame [(35, [88, 88])] (by decide) (Or.inl (by decide))

/-- A frame carrying `6010=NaN`:
`35=U1|55=NKISI|448=eve|6010=NaN|6011=5`. -/
def nanFrame : List Nat :=
  [51, 53, 61, 85, 49, 1, 53, 53, 61, 78, 75, 73, 83, 73, 1,
   52, 52, 56, 61, 101, 118, 101, 1, 54, 48, 49, 48, 61, 78, 97, 78, 1,
   54, 48, 49, 49, 61, 53, 1]

/-- The event decoded from `nanFrame`. -/
def nanEv : ExternalSpike := ⟨(Fl.nan, Fl.fin 5), [101, 118, 101], none, none⟩

/-- A frame carrying `6010=150`:
`35=U1|55=NKISI|448=bob|6010=150|6011=20`. -/
def x150Frame : List Nat :=
  [51, 53, 61, 85, 49, 1, 53, 53, 61, 78, 75, 73, 83, 73, 1,
   52, 52, 56, 61, 98, 111, 98, 1, 54, 48, 49, 48, 61, 49, 53, 48, 1,
   54, 48, 49, 49, 61, 50, 48, 1]

/-- A frame carrying `6011=-10`:
`35=U1|55=NKISI|448=bob|6010=5|6011=-10`. -/
def yNeg10Frame : List Nat :=
  [51, 53, 61, 85, 49, 1, 53, 53, 61, 78, 75, 73, 83, 73, 1,
   52, 52, 56, 61, 98, 111, 98, 1, 54, 48, 49, 48, 61, 53, 1,
   54, 48, 49, 49, 61, 45, 49, 48, 1]

/-- C6 counterexample: the value `NaN` parses as a float (Rust's
`f32::from_str` accepts it), `clamp` propagates NaN, and the decoder
returns a Spike Event whose x position is NaN — which does not lie in
`[0, 100]`.  This refutes the claim that every returned event has its
x position in `[0, 100]`. -/
theorem clamp_bounds_counterexample :
    parse_fix_spike nanFrame = some nanEv ∧
    flInBounds 0 100 nanEv.pos.1 = false :=
  ⟨by decide, by decide⟩

/-- C6 amended: whenever the decoder returns an event, each position is
either NaN (possible only when the wire value was a NaN literal) or
lies in the figure box — x in `[0, 100]`, y in `[0, 150]`; in
particular `6010=150` decodes to x = 100 and `6011=-10` decodes to
y = 0. -/
theorem clamp_in_bounds :
    (∀ raw ev, parse_fix_spike raw = some ev →
      (ev.pos.1 = Fl.nan ∨ flInBounds 0 100 ev.pos.1 = true) ∧
      (ev.pos.2 = Fl.nan ∨ flInBounds 0 150 ev.pos.2 = true)) ∧
    parse_fix_spike x150Frame =
      some ⟨(Fl.fin 100, Fl.fin 20), [98, 111, 98], none, none⟩ ∧
    parse_fix_spike yNeg10Frame =
      some ⟨(Fl.fin 5, Fl.fin 0), [98, 111, 98], none, none⟩ := by
  refine ⟨?_, by decide, by decide⟩
  intro raw ev h
  cases hm : mapOf raw with
  | none => simp [parse_fix_spike, hm] at h
  | some m =>
    have hpm : parseFromMap m = some ev := by
      simp only [parse_fix_spike, hm] at h
      exact h
    rw [parseFromMap_some_iff] at hpm
    obtain ⟨who, xs, ys, x, y, _, _, _, _, _, _, _, hev⟩ := hpm
    subst hev
    exact ⟨fclamp_cases x 0 100 (by norm_num), fclamp_cases y 0 150 (by norm_num)⟩

/-- C6 witness: the in-bounds guarantee instantiated on the `6010=150`
frame, whose decoded event has x = 100 and y = 20. -/
theorem clamp_in_bounds_witness :
    (Fl.fin 100 = Fl.nan ∨ flInBounds 0 100 (Fl.fin 100) = true) ∧
    (Fl.fin 20 = Fl.nan ∨ flInBounds 0 150 (Fl.fin 20) = true) :=
  clamp_in_bounds.1 x150Frame
    ⟨(Fl.fin 100, Fl.fin 20), [98, 111, 98], none, none⟩ (by decide)

/-- A frame whose actor tag carries the empty value:
`35=U1|55=NKISI|448=|6010=1|6011=2`. -/
def emptyWhoFrame : List Nat :=
  [51, 53, 61, 85, 49, 1, 53, 53, 61, 78, 75, 73, 83, 73, 1,
   52, 52, 56, 61, 1, 54, 48, 49, 48, 61, 49, 1, 54, 48, 49, 49, 61, 50, 1]

/-- The event decoded from `emptyWhoFrame`: its who is empty. -/
def emptyWhoEv : ExternalSpike := ⟨(Fl.fin 1, Fl.fin 2), [], none, none⟩

/-- The tag map decoded from `emptyWhoFrame`. -/
def emptyWhoMap : List (Int × List Nat) :=
  [(6011, [50]), (6010, [49]), (448, []), (55, [78, 75, 73, 83, 73]),
   (35, [85, 49])]

/-- C7 counterexample: a frame whose actor field carries the empty value
still decodes to an event, and that event's who is the empty string.
This refutes the claim that such a frame does not decode. -/
theorem who_empty_counterexample :
    parse_fix_spike emptyWhoFrame = some emptyWhoEv ∧ emptyWhoEv.who = [] :=
  ⟨by decide, rfl⟩

/-- C7 amended: the decoder copies the actor tag's value verbatim into
the event's who; the tag must be present, but its value may be empty,
in which case the event's who is empty. -/
theorem who_from_tag (raw : List Nat) (ev : ExternalSpike)
    (m : List (Int × List Nat)) (h : parse_fix_spike raw = some ev)
    (hm : mapOf raw = some m) : findTag m 448 = some ev.who := by
  have hpm : parseFromMap m = some ev := by
    simp only [parse_fix_spike, hm] at h
    exact h
  rw [parseFromMap_some_iff] at hpm
  obtain ⟨who, xs, ys, x, y, _, _, h448, _, _, _, _, hev⟩ := hpm
  subst hev
  exact h448

/-- C7 witness: on the empty-actor frame the decoded who is exactly the
(empty) actor tag value. -/
theorem who_from_tag_witness : findTag emptyWhoMap 448 = some emptyWhoEv.who :=
  who_from_tag emptyWhoFrame emptyWhoEv emptyWhoMap (by decide) (by decide)

/-- C9.  Optional-field leniency: when the required tags check out, the
decoder always returns the event; its message is exactly the (optional)
tag-58 value — `none` when absent — and its timestamp is the RFC 3339
parse of the (optional) tag-60 value — `none` when absent or
unparsable.  Absence or parse failure of either never rejects the
message. -/
theorem optional_leniency (raw : List Nat) (m : List (Int × List Nat))
    (who xs ys : List Nat) (x y : Fl)
    (hm : mapOf raw = some m)
    (h35 : findTag m 35 = some [85, 49])
    (h55 : findTag m 55 = some [78, 75, 73, 83, 73])
    (h448 : findTag m 448 = some who)
    (h6010 : findTag m 6010 = some xs) (hx : parseF32 xs = some x)
    (h6011 : findTag m 6011 = some ys) (hy : parseF32 ys = some y) :
    parse_fix_spike raw = some ⟨(fclamp x 0 100, fclamp y 0 150), who,
      findTag m 58, (findTag m 60).bind parse_from_rfc3339⟩ := by
  have hpm := parseFromMap_some_iff.mpr
    ⟨who, xs, ys, x, y, h35, h55, h448, h6010, hx, h6011, hy, rfl⟩
  simp only [parse_fix_spike, hm]
  exact hpm

/-- A frame with no free-text tag and an unparsable timestamp value:
`35=U1|55=NKISI|448=zo|6010=3|6011=4|60=bad`. -/
def c9frame : List Nat :=
  [51, 53, 61, 85, 49, 1, 53, 53, 61, 78, 75, 73, 83, 73, 1,
   52, 52, 56, 61, 122, 111, 1, 54, 48, 49, 48, 61, 51, 1,
   54, 48, 49, 49, 61, 52, 1, 54, 48, 61, 98, 97, 100, 1]

/-- The tag map decoded from `c9frame`. -/
def c9map : List (Int × List Nat) :=
  [(60, [98, 97, 100]), (6011, [52]), (6010, [51]), (448, [122, 111]),
   (55, [78, 75, 73, 83, 73]), (35, [85, 49])]

/-- C9 witness: the leniency theorem on a frame with tag 58 absent and
tag 60 unparsable — the event is returned with message and timestamp
both unset. -/
theorem optional_leniency_witness :
    parse_fix_spike c9frame =
      some ⟨(Fl.fin 3, Fl.fin 4), [122, 111], none, none⟩ :=
  (optional_leniency c9frame c9map [122, 111] [51] [52] (Fl.fin 3) (Fl.fin 4)
    (by decide) (by decide) (by decide) (by decide) (by decide) (by decide)
    (by decide) (by decide)).trans (by decide)

/-- The tag map with the integrity tags 9 (body length) and 10
(checksum) removed. -/
def stripTags (m : List (Int × List Nat)) : List (Int × List Nat) :=
  m.filter (fun p => !(p.1 == 9) && !(p.1 == 10))

/-- Removing the integrity tags does not disturb other lookups. -/
theorem findTag_strip (m : List (Int × List Nat)) (t : Int)
    (h9 : t ≠ 9) (h10 : t ≠ 10) : findTag (stripTags m) t = findTag m t := by
  induction m with
  | nil => rfl
  | cons p m ih =>
    cases p with
    | mk k v =>
      by_cases hk : k = 9 ∨ k = 10
      · have hpf : (!(k == 9) && !(k == 10)) = false := by
          rcases hk with hk | hk <;> simp [hk]
        have ht : (t == k) = false := by
          rcases hk with hk | hk <;> (subst hk; simp; omega)
        have hs : stripTags ((k, v) :: m) = stripTags m := by
          simp [stripTags, List.filter_cons, hpf]
        rw [hs, ih]
        simp [findTag, List.lookup, ht]
      · push_neg at hk
        have hpf : (!(k == 9) && !(k == 10)) = true := by simp [hk.1, hk.2]
        have hs : stripTags ((k, v) :: m) = (k, v) :: stripTags m := by
          simp [stripTags, List.filter_cons, hpf]
        rw [hs]
        by_cases ht : t = k
        · simp [findTag, List.lookup, ht]
        · have ht2 : (t == k) = false := by simp [ht]
          simp only [findTag, List.lookup, ht2]
          exact ih

/-- C10.  No receiver integrity validation: the decoder never reads the
body-length (9) or checksum (10) tags, so two frames whose tag maps
agree everywhere except possibly at tags 9 and 10 decode identically —
arbitrary, even wrong, body-length and checksum values give the same
event. -/
theorem no_integrity_check (raw1 raw2 : List Nat)
    (m1 m2 : List (Int × List Nat))
    (h1 : mapOf raw1 = some m1) (h2 : mapOf raw2 = some m2)
    (hstrip : stripTags m1 = stripTags m2) :
    parse_fix_spike raw1 = parse_fix_spike raw2 := by
  have he : ∀ t : Int, t ≠ 9 → t ≠ 10 → findTag m1 t = findTag m2 t := by
    intro t h9 h10
    rw [← findTag_strip m1 t h9 h10, hstrip, findTag_strip m2 t h9 h10]
  have e35 := he 35 (by decide) (by decide)
  have e55 := he 55 (by decide) (by decide)
  have e448 := he 448 (by decide) (by decide)
  have e6010 := he 6010 (by decide) (by decide)
  have e6011 := he 6011 (by decide) (by decide)
  have e58 := he 58 (by decide) (by decide)
  have e60 := he 60 (by decide) (by decide)
  simp only [parse_fix_spike, h1, h2]
  rw [parseFromMap, parseFromMap, e35, e55, e448, e6010, e6011, e58, e60]

/-- A frame with plausible tags 9 and 10:
`8=FIX.4.2|9=42|35=U1|55=NKISI|448=jo|6010=1|6011=2|10=123`. -/
def c10frameA : List Nat :=
  [56, 61, 70, 73, 88, 46, 52, 46, 50, 1, 57, 61, 52, 50, 1,
   51, 53, 61, 85, 49, 1, 53, 53, 61, 78, 75, 73, 83, 73, 1,
   52, 52, 56, 61, 106, 111, 1, 54, 48, 49, 48, 61, 49, 1,
   54, 48, 49, 49, 61, 50, 1, 49, 48, 61, 49, 50, 51, 1]

/-- The same frame with incorrect body length and checksum:
`8=FIX.4.2|9=999|35=U1|55=NKISI|448=jo|6010=1|6011=2|10=000`. -/
def c10frameB : List Nat :=
  [56, 61, 70, 73, 88, 46, 52, 46, 50, 1, 57, 61, 57, 57, 57, 1,
   51, 53, 61, 85, 49, 1, 53, 53, 61, 78, 75, 73, 83, 73, 1,
   52, 52, 56, 61, 106, 111, 1, 54, 48, 49, 48, 61, 49, 1,
   54, 48, 49, 49, 61, 50, 1, 49, 48, 61, 48, 48, 48, 1]

/-- The tag map decoded from `c10frameA`. -/
def c10mapA : List (Int × List Nat) :=
  [(10, [49, 50, 51]), (6011, [50]), (6010, [49]), (448, [106, 111]),
   (55, [78, 75, 73, 83, 73]), (35, [85, 49]), (9, [52, 50]),
   (8, [70, 73, 88, 46, 52, 46, 50])]

/-- The tag map decoded from `c10frameB`. -/
def c10mapB : List (Int × List Nat) :=
  [(10, [48, 48, 48]), (6011, [50]), (6010, [49]), (448, [106, 111]),
   (55, [78, 75, 73, 83, 73]), (35, [85, 49]), (9, [57, 57, 57]),
   (8, [70, 73, 88, 46, 52, 46, 50])]

/-- C10 witness: two frames differing only in their body-length and
checksum values decode to the same result. -/
theorem no_integrity_check_witness :
    parse_fix_spike c10frameA = parse_fix_spike c10frameB :=
  no_integrity_check c10frameA c10frameB c10mapA c10mapB
    (by decide) (by decide) (by decide)

/-- Decimal digits never collide with the SOH delimiter. -/
theorem natDigits_no_soh (n : Nat) : ∀ b ∈ natDigits n, b ≠ 1 := by
  intro b hb
  have := natDigits_mem n b hb
  omega

/-- Zero-padded digits never collide with the SOH delimiter. -/
theorem pad3_no_soh (n : Nat) : ∀ b ∈ pad3 n, b ≠ 1 := by
  intro b hb
  simp only [pad3, List.mem_append, List.mem_replicate] at hb
  rcases hb with hb | hb
  · omega
  · have := natDigits_mem n b hb
    omega

/-- One accepted field inserts its binding and moves on. -/
theorem mapAux_cons_insert (f : List Nat) (fs : List (List Nat))
    (m : List (Int × List Nat)) (eq : Nat) (key : Int)
    (hne : f ≠ []) (hidx : f.findIdx? (fun b => b == 61) = some eq)
    (hkey : parseI32 (f.take eq) = some key)
    (hval : utf8Valid (f.drop (eq + 1)) = true) :
    mapAux (f :: fs) m = mapAux fs (insertTag m key (f.drop (eq + 1))) := by
  simp only [mapAux, if_neg hne, hidx, hkey, if_pos hval]

/-- The codec precondition on field values (spelled out in the wire
format): a value carries neither the delimiter byte nor an `=` byte. -/
def validValue (l : List Nat) : Prop := ∀ b ∈ l, b ≠ 1 ∧ b ≠ 61

instance (l : List Nat) : Decidable (validValue l) :=
  List.decidableBAll (fun b => b ≠ 1 ∧ b ≠ 61) l

/-- C1 amended: the round trip never completes.  For every valid actor,
note and spike id (and any SOH-free sending time), the frame built by
`build_spike_message` decodes to nothing: its message type is `SPK`
while `parse_fix_spike` demands `U1` (and the frame also lacks the
symbol, actor and position tags the decoder requires). -/
theorem round_trip_fails (spike_id : Nat) (who note ts f : List Nat)
    (hwho : validValue who) (hnote : validValue note) (hts : validValue ts)
    (hb : build_spike_message spike_id who note ts = some f) :
    parse_fix_spike f = none := by
  rw [build_eq] at hb
  have hf : f = frameOf spike_id who note ts := by
    injection hb with h2
    exact h2.symm
  subst hf
  have hshape : frameOf spike_id who note ts =
      [56, 61, 70, 73, 88, 46, 52, 46, 50] ++ 1 ::
        ((57 :: 61 :: natDigits (bodyBytes spike_id who note ts).length) ++ 1 ::
          ([51, 53, 61, 83, 80, 75] ++ 1 ::
            (([49, 48, 48, 61] ++ natDigits spike_id) ++ 1 ::
              (([49, 48, 49, 61] ++ who) ++ 1 ::
                (([49, 48, 50, 61] ++ note) ++ 1 ::
                  (([53, 50, 61] ++ ts) ++ 1 ::
                    (([49, 48, 61] ++ pad3 (checksum
                      ([56, 61, 70, 73, 88, 46, 52, 46, 50, 1, 57, 61] ++
                        natDigits (bodyBytes spike_id who note ts).length ++
                        [1] ++ bodyBytes spike_id who note ts))) ++ 1 ::
                      ([] : List Nat)))))))) := by
    simp only [frameOf, bodyBytes, List.append_assoc, List.cons_append,
      List.nil_append]
  rw [hshape]
  have hdLmem := natDigits_mem (bodyBytes spike_id who note ts).length
  have hdidmem := natDigits_mem spike_id
  have hpkmem : ∀ b ∈ pad3 (checksum
      ([56, 61, 70, 73, 88, 46, 52, 46, 50, 1, 57, 61] ++
        natDigits (bodyBytes spike_id who note ts).length ++
        [1] ++ bodyBytes spike_id who note ts)), b ≠ 1 :=
    pad3_no_soh _
  generalize hdL : natDigits (bodyBytes spike_id who note ts).length = dL
    at hdLmem hpkmem ⊢
  generalize hpk : pad3 (checksum
      ([56, 61, 70, 73, 88, 46, 52, 46, 50, 1, 57, 61] ++ dL ++
        [1] ++ bodyBytes spike_id who note ts)) = pk at hpkmem ⊢
  generalize hdid : natDigits spike_id = did at hdidmem ⊢
  have hsoh2 : ∀ b ∈ 57 :: 61 :: dL, b ≠ 1 := by
    intro b hbm
    simp only [List.mem_cons] at hbm
    rcases hbm with rfl | rfl | hbm
    · omega
    · omega
    · have := hdLmem b hbm
      omega
  have hsoh4 : ∀ b ∈ [49, 48, 48, 61] ++ did, b ≠ 1 := by
    intro b hbm
    simp only [List.mem_append, List.mem_cons, List.not_mem_nil, or_false] at hbm
    rcases hbm with hbm | hbm
    · rcases hbm with rfl | rfl | rfl | rfl <;> omega
    · have := hdidmem b hbm
      omega
  have hsoh5 : ∀ b ∈ [49, 48, 49, 61] ++ who, b ≠ 1 := by
    intro b hbm
    simp only [List.mem_append, List.mem_cons, List.not_mem_nil, or_false] at hbm
    rcases hbm with hbm | hbm
    · rcases hbm with rfl | rfl | rfl | rfl <;> omega
    · exact (hwho b hbm).1
  have hsoh6 : ∀ b ∈ [49, 48, 50, 61] ++ note, b ≠ 1 := by
    intro b hbm
    simp only [List.mem_append, List.mem_cons, List.not_mem_nil, or_false] at hbm
    rcases hbm with hbm | hbm
    · rcases hbm with rfl | rfl | rfl | rfl <;> omega
    · exact (hnote b hbm).1
  have hsoh7 : ∀ b ∈ [53, 50, 61] ++ ts, b ≠ 1 := by
    intro b hbm
    simp only [List.mem_append, List.mem_cons, List.not_mem_nil, or_false] at hbm
    rcases hbm with hbm | hbm
    · rcases hbm with rfl | rfl | rfl <;> omega
    · exact (hts b hbm).1
  have hsoh8 : ∀ b ∈ [49, 48, 61] ++ pk, b ≠ 1 := by
    intro b hbm
    simp only [List.mem_append, List.mem_cons, List.not_mem_nil, or_false] at hbm
    rcases hbm with hbm | hbm
    · rcases hbm with rfl | rfl | rfl <;> omega
    · exact hpkmem b hbm
  have hmap : mapOf ([56, 61, 70, 73, 88, 46, 52, 46, 50] ++ 1 ::
      ((57 :: 61 :: dL) ++ 1 ::
        ([51, 53, 61, 83, 80, 75] ++ 1 ::
          (([49, 48, 48, 61] ++ did) ++ 1 ::
            (([49, 48, 49, 61] ++ who) ++ 1 ::
              (([49, 48, 50, 61] ++ note) ++ 1 ::
                (([53, 50, 61] ++ ts) ++ 1 ::
                  (([49, 48, 61] ++ pk) ++ 1 :: ([] : List Nat))))))))) =
      mapAux [[49, 48, 48, 61] ++ did,
        [49, 48, 49, 61] ++ who, [49, 48, 50, 61] ++ note,
        [53, 50, 61] ++ ts, [49, 48, 61] ++ pk, []]
        (insertTag (insertTag (insertTag [] 8 [70, 73, 88, 46, 52, 46, 50]) 9
          ((57 :: 61 :: dL).drop 2)) 35 [83, 80, 75]) := by
    rw [mapOf]
    rw [splitSOH_append _ _ (by decide)]
    rw [splitSOH_append _ _ hsoh2]
    rw [splitSOH_append _ _ (by decide)]
    rw [splitSOH_append _ _ hsoh4]
    rw [splitSOH_append _ _ hsoh5]
    rw [splitSOH_append _ _ hsoh6]
    rw [splitSOH_append _ _ hsoh7]
    rw [splitSOH_append _ _ hsoh8]
    rw [show mapAux ([56, 61, 70, 73, 88, 46, 52, 46, 50] ::
        (57 :: 61 :: dL) :: [51, 53, 61, 83, 80, 75] ::
        ([49, 48, 48, 61] ++ did) :: ([49, 48, 49, 61] ++ who) ::
        ([49, 48, 50, 61] ++ note) :: ([53, 50, 61] ++ ts) ::
        ([49, 48, 61] ++ pk) :: splitSOH []) [] =
        mapAux ((57 :: 61 :: dL) :: [51, 53, 61, 83, 80, 75] ::
        ([49, 48, 48, 61] ++ did) :: ([49, 48, 49, 61] ++ who) ::
        ([49, 48, 50, 61] ++ note) :: ([53, 50, 61] ++ ts) ::
        ([49, 48, 61] ++ pk) :: splitSOH [])
          (insertTag [] 8 [70, 73, 88, 46, 52, 46, 50]) from rfl]
    rw [mapAux_cons_insert (57 :: 61 :: dL) _ _ 1 9 (by simp) rfl rfl
      (utf8Valid_ascii dL (by
        intro b hbm
        have := hdLmem b hbm
        omega))]
    rw [show ∀ fs m, mapAux ([51, 53, 61, 83, 80, 75] :: fs) m =
        mapAux fs (insertTag m 35 [83, 80, 75]) from fun fs m => rfl]
    rfl
  have h35m3 : findTag (insertTag (insertTag (insertTag [] 8
      [70, 73, 88, 46, 52, 46, 50]) 9 ((57 :: 61 :: dL).drop 2))
      35 [83, 80, 75]) 35 = some [83, 80, 75] := findTag_insert_self _ _ _
  have hkeys : ∀ g ∈ [[49, 48, 48, 61] ++ did,
      [49, 48, 49, 61] ++ who, [49, 48, 50, 61] ++ note,
      [53, 50, 61] ++ ts, [49, 48, 61] ++ pk, ([] : List Nat)],
      ∀ k, fieldKey g = some k → k ≠ 35 := by
    intro g hg k hk
    simp only [List.mem_cons, List.not_mem_nil, or_false] at hg
    rcases hg with rfl | rfl | rfl | rfl | rfl | rfl
    · rw [show fieldKey ([49, 48, 48, 61] ++ did) = some 100 from rfl] at hk
      injection hk with hk2
      subst hk2
      decide
    · rw [show fieldKey ([49, 48, 49, 61] ++ who) = some 101 from rfl] at hk
      injection hk with hk2
      subst hk2
      decide
    · rw [show fieldKey ([49, 48, 50, 61] ++ note) = some 102 from rfl] at hk
      injection hk with hk2
      subst hk2
      decide
    · rw [show fieldKey ([53, 50, 61] ++ ts) = some 52 from rfl] at hk
      injection hk with hk2
      subst hk2
      decide
    · rw [show fieldKey ([49, 48, 61] ++ pk) = some 10 from rfl] at hk
      injection hk with hk2
      subst hk2
      decide
    · rw [show fieldKey ([] : List Nat) = none from rfl] at hk
      exact Option.noConfusion hk
  have hpres := mapAux_preserve 35
    [[49, 48, 48, 61] ++ did, [49, 48, 49, 61] ++ who,
      [49, 48, 50, 61] ++ note, [53, 50, 61] ++ ts, [49, 48, 61] ++ pk, []]
    (insertTag (insertTag (insertTag [] 8 [70, 73, 88, 46, 52, 46, 50]) 9
      ((57 :: 61 :: dL).drop 2)) 35 [83, 80, 75]) hkeys
  cases hpres with
  | inl hnone =>
    have hmf := hmap.trans hnone
    simp only [parse_fix_spike, hmf]
  | inr hsome =>
    obtain ⟨m2, hm2, hfind⟩ := hsome
    have hmf := hmap.trans hm2
    have h35 : findTag m2 35 = some [83, 80, 75] := hfind.trans h35m3
    simp only [parse_fix_spike, hmf]
    cases hp : parseFromMap m2 with
    | none => rfl
    | some ev =>
      exfalso
      rw [parseFromMap_some_iff] at hp
      obtain ⟨w2, xs, ys, x, y, h35u, _, _, _, _, _, _, _⟩ := hp
      rw [h35] at h35u
      injection h35u with hbad
      simp at hbad

set_option maxRecDepth 10000 in
/-- C1 counterexample: the concrete round trip of the claim's scenario
fails.  Encoding spike id 7, actor `alice`, note `test` succeeds;
feeding the bytes to the reassembler yields that single frame back; but
decoding it yields nothing (no Spike Event, so no actor to equal
`alice`): the encoder writes message type `SPK`, tags 100/101/102 and no
positions, while the decoder requires `U1`, `NKISI`, and tags
448/6010/6011. -/
theorem round_trip_counterexample :
    build_spike_message 7 aliceB testB tsB = some c1frame ∧
    extract c1frame = ([c1frame], []) ∧
    parse_fix_spike c1frame = none :=
  ⟨by decide, by decide, by decide⟩

set_option maxRecDepth 10000 in
/-- C1 witness: the amended statement evaluated at spike id 7, actor
`alice`, note `test`. -/
theorem round_trip_fails_witness : parse_fix_spike c1frame = none :=
  round_trip_fails 7 aliceB testB tsB c1frame (by decide) (by decide)
    (by decide) (by decide)
